import Mathlib

/-!
Verification of the train/test feature-alignment and evaluation pipeline of
the churn-analysis notebook (src/Churn_Analysis_Explained.ipynb).

A tabular frame is modelled column-oriented: an ordered association list of
(column name, cell values), together with the frame's row count.  Numeric
cells are rationals.  The pandas operations used by the notebook are embedded
as total or Option-valued functions on this type:

  * `testingDF[col] = 0`           -> `Frame.addCol` (appends a constant column)
  * `set(X.columns) - set(t.columns)` iterated -> `missing_cols` / `addMissing`
  * `testingDF[X.columns]`         -> `Frame.select` (KeyError = `none`)
  * `df.drop(c, axis=1)`           -> `Frame.drop`   (KeyError = `none`)
  * `df[c]`                        -> `Frame.getCol` (KeyError = `none`)

The evaluation stage (`classification_report`, the 0.5 threshold, and
`pd.DataFrame(importance_data)`) is embedded further below.
-/

/-- A tabular frame: a row count plus an ordered list of named columns. -/
structure Frame where
  nrows : Nat
  cols : List (String × List ℚ)
  deriving Repr, DecidableEq

namespace Frame

/-- The frame's column names, in order. -/
def colNames (f : Frame) : List String :=
  f.cols.map Prod.fst

/-- `df[c]`: the cell values of column `c` (first occurrence), or `none`
(pandas `KeyError`) when no such column exists. -/
def getCol (f : Frame) (n : String) : Option (List ℚ) :=
  (f.cols.find? (fun p => p.1 == n)).map Prod.snd

/-- Whether the frame has a column named `n`. -/
def hasCol (f : Frame) (n : String) : Bool :=
  (f.getCol n).isSome

/-- `df[col] = v` for a fresh column name: appends a new column holding the
constant `v` in every row. -/
def addCol (f : Frame) (n : String) (v : ℚ) : Frame :=
  ⟨f.nrows, f.cols ++ [(n, List.replicate f.nrows v)]⟩

/-- `df[names]`: selects the listed columns, in the listed order; `none`
(pandas `KeyError`) when one of them is absent. -/
def select (f : Frame) (names : List String) : Option Frame :=
  (names.mapM (fun n => (f.getCol n).map (fun v => (n, v)))).map
    (fun cs => ⟨f.nrows, cs⟩)

/-- `df.drop(n, axis=1)`: removes column `n`; `none` (pandas `KeyError`) when
the column is absent. -/
def drop (f : Frame) (n : String) : Option Frame :=
  if f.hasCol n then some ⟨f.nrows, f.cols.filter (fun p => p.1 != n)⟩
  else none

end Frame

/-- `missing_cols = set(X.columns) - set(testingDF.columns)`, enumerated in
training-schema order (the notebook iterates over the set in an arbitrary
order; order-independence is proved below). -/
def missing_cols (trainCols : List String) (t : Frame) : List String :=
  trainCols.filter (fun c => !(t.hasCol c))

/-- `for col in ms: testingDF[col] = 0`. -/
def addMissing (t : Frame) (ms : List String) : Frame :=
  ms.foldl (fun f c => f.addCol c 0) t

/-- The alignment step with an explicit iteration order for the missing
columns: fill each column of `ms` with zeros, then select the training
schema. -/
def alignWith (trainCols : List String) (ms : List String) (t : Frame) :
    Option Frame :=
  (addMissing t ms).select trainCols

/-- The notebook's alignment step (cell 11, lines 131-134): fill the columns
of the training schema missing from the test frame with zeros, then reindex
the test frame to the training schema. -/
def align (trainCols : List String) (t : Frame) : Option Frame :=
  alignWith trainCols (missing_cols trainCols t) t

/-- Closed form of the aligned frame: one column per training-schema name, in
schema order; an existing test column keeps its values, a missing one is all
zeros. -/
def alignF (trainCols : List String) (t : Frame) : Frame :=
  ⟨t.nrows,
    trainCols.map (fun n => (n, (t.getCol n).getD (List.replicate t.nrows 0)))⟩

/-- The alignment lines of cell 11 as a transformer of the notebook state
(`X`, `testingDF`): the training Feature Matrix `X` is only read (its column
list); only `testingDF` is rebound. -/
def alignStep (X t : Frame) : Frame × Option Frame :=
  (X, align X.colNames t)

/-- Cell 11's alignment-and-extraction stage: align the raw test frame to the
training feature schema `X.columns`, then `X_test = testingDF.drop('Churn',
axis=1)` and `y_test = testingDF['Churn']` on the aligned frame. -/
def alignAndExtract (X t : Frame) : Option (Frame × Frame × List ℚ) := do
  let aligned ← align X.colNames t
  let xTest ← aligned.drop "Churn"
  let yTest ← aligned.getCol "Churn"
  pure (aligned, xTest, yTest)

/-- The spec's concrete alignment scenario: a test frame with schema
[A, B, OneHot_X, OneHot_Z]. -/
def scenarioTest : Frame :=
  ⟨2, [("A", [1, 2]), ("B", [3, 4]), ("OneHot_X", [1, 0]), ("OneHot_Z", [0, 1])]⟩

/-- Expected result of aligning `scenarioTest` to the training schema
[A, B, OneHot_X, OneHot_Y]: OneHot_Y all zeros, OneHot_Z gone. -/
def scenarioAligned : Frame :=
  ⟨2, [("A", [1, 2]), ("B", [3, 4]), ("OneHot_X", [1, 0]), ("OneHot_Y", [0, 0])]⟩

/-- A well-formed training Feature Matrix: the label column "Churn" was
already dropped by `X = df_encoded.drop('Churn', axis=1)`. -/
def churnTrainX : Frame := ⟨3, [("A", [1, 2, 3]), ("OneHot_X", [0, 1, 0])]⟩

/-- A well-formed raw test frame with the expected schema, the label column
"Churn" included. -/
def churnRawTest : Frame :=
  ⟨2, [("A", [5, 6]), ("OneHot_X", [1, 1]), ("Churn", [0, 1])]⟩

/-- `(score >= 0.5).astype(int)` on a single score (cell 14). -/
def threshold (s : ℚ) : ℚ := if 1/2 ≤ s then 1 else 0

/-- `(model.predict(X_test) >= 0.5).astype(int)`: elementwise thresholding of
a continuous score vector. -/
def thresholdVec (v : List ℚ) : List ℚ := v.map threshold

/-- Number of positions where the true and predicted labels both equal `c`. -/
def tpCount (yTrue yPred : List ℚ) (c : ℚ) : Nat :=
  ((yTrue.zip yPred).filter (fun p => p.1 == c && p.2 == c)).length

/-- Number of positions predicted `c` whose true label differs from `c`. -/
def fpCount (yTrue yPred : List ℚ) (c : ℚ) : Nat :=
  ((yTrue.zip yPred).filter (fun p => !(p.1 == c) && p.2 == c)).length

/-- Number of positions with true label `c` predicted as something else. -/
def fnCount (yTrue yPred : List ℚ) (c : ℚ) : Nat :=
  ((yTrue.zip yPred).filter (fun p => p.1 == c && !(p.2 == c))).length

/-- Support of class `c`: count of true instances. -/
def supportCount (yTrue : List ℚ) (c : ℚ) : Nat :=
  (yTrue.filter (fun a => a == c)).length

/-- Per-class precision, with sklearn's `classification_report` convention
that a zero denominator is reported as 0 rather than NaN. -/
def precision (yTrue yPred : List ℚ) (c : ℚ) : ℚ :=
  if tpCount yTrue yPred c + fpCount yTrue yPred c = 0 then 0
  else (tpCount yTrue yPred c : ℚ) /
    ((tpCount yTrue yPred c : ℚ) + (fpCount yTrue yPred c : ℚ))

/-- Per-class recall, zero-denominator reported as 0. -/
def recall_score (yTrue yPred : List ℚ) (c : ℚ) : ℚ :=
  if tpCount yTrue yPred c + fnCount yTrue yPred c = 0 then 0
  else (tpCount yTrue yPred c : ℚ) /
    ((tpCount yTrue yPred c : ℚ) + (fnCount yTrue yPred c : ℚ))

/-- F1: harmonic mean of precision and recall, 0 when both vanish. -/
def f1score (yTrue yPred : List ℚ) (c : ℚ) : ℚ :=
  if precision yTrue yPred c + recall_score yTrue yPred c = 0 then 0
  else 2 * precision yTrue yPred c * recall_score yTrue yPred c /
    (precision yTrue yPred c + recall_score yTrue yPred c)

/-- Overall accuracy: fraction of positions where the labels agree. -/
def accuracy (yTrue yPred : List ℚ) : ℚ :=
  if yTrue.length = 0 then 0
  else (((yTrue.zip yPred).filter (fun p => p.1 == p.2)).length : ℚ) /
    (yTrue.length : ℚ)

/-- A pandas Series: a string index plus the values, positionally paired. -/
structure Series where
  index : List String
  values : List ℚ
  deriving Repr, DecidableEq

/-- Series value at label `n` under reindexing: the value at the first
position of `n` in the index, NaN (`none`) when `n` is absent. -/
def Series.lookup (s : Series) (n : String) : Option ℚ :=
  if n ∈ s.index then s.values[s.index.indexOf n]? else none

/-- `importance_data` (cell 17): one (model name, Series) pair per model,
every Series built over the training feature names (`index=X.columns`). -/
def importance_data (features : List String)
    (coefs : List (String × List ℚ)) : List (String × Series) :=
  coefs.map (fun m => (m.1, ⟨features, m.2⟩))

/-- One step of pandas's first-seen ordered union of row labels. -/
def dedupStep (acc : List String) (n : String) : List String :=
  if n ∈ acc then acc else acc ++ [n]

/-- First-seen deduplication of a label list. -/
def dedupFirst (l : List String) : List String := l.foldl dedupStep []

/-- The row index of `pd.DataFrame(dict_of_series)`: the ordered union of
the series indices. -/
def unionIndex (ms : List (String × Series)) : List String :=
  dedupFirst (ms.map (fun m => m.2.index)).flatten

/-- `importance_df = pd.DataFrame(importance_data)`: rows indexed by the
union of the series indices; a cell is the series value at the row label,
`none` (NaN) when that label is missing from the series. -/
def importance_df (ms : List (String × Series)) :
    List (String × List (Option ℚ)) :=
  (unionIndex ms).map (fun r => (r, ms.map (fun m => m.2.lookup r)))

namespace Frame

theorem colNames_addCol (f : Frame) (n : String) (v : ℚ) :
    (f.addCol n v).colNames = f.colNames ++ [n] := by
  simp [addCol, colNames]

theorem nrows_addCol (f : Frame) (n : String) (v : ℚ) :
    (f.addCol n v).nrows = f.nrows := rfl

theorem getCol_addCol (f : Frame) (n m : String) (v : ℚ) :
    (f.addCol n v).getCol m =
      if (f.getCol m).isSome then f.getCol m
      else if n == m then some (List.replicate f.nrows v) else none := by
  unfold getCol addCol
  rw [List.find?_append]
  cases h : f.cols.find? (fun p => p.1 == m) with
  | none =>
    by_cases hnm : n == m <;> simp [h, List.find?, hnm]
  | some p => simp [h]

end Frame

theorem nrows_addMissing (t : Frame) (ms : List String) :
    (addMissing t ms).nrows = t.nrows := by
  induction ms generalizing t with
  | nil => rfl
  | cons c rest ih => simpa [addMissing] using ih (t.addCol c 0)

theorem getCol_addMissing_of_hasCol (t : Frame) (ms : List String)
    (n : String) (h : t.hasCol n) :
    (addMissing t ms).getCol n = t.getCol n := by
  induction ms generalizing t with
  | nil => rfl
  | cons c rest ih =>
    have h1 : (t.addCol c 0).getCol n = t.getCol n := by
      rw [Frame.getCol_addCol]
      simp [Frame.hasCol] at h
      simp [h]
    calc (addMissing t (c :: rest)).getCol n
        = (addMissing (t.addCol c 0) rest).getCol n := rfl
      _ = (t.addCol c 0).getCol n := by
          apply ih
          simp [Frame.hasCol, h1]
          simpa [Frame.hasCol] using h
      _ = t.getCol n := h1

theorem getCol_addMissing_of_missing (t : Frame) (ms : List String)
    (n : String) (h : t.hasCol n = false) (hm : n ∈ ms) :
    (addMissing t ms).getCol n = some (List.replicate t.nrows 0) := by
  induction ms generalizing t with
  | nil => cases hm
  | cons c rest ih =>
    by_cases hnc : c = n
    · subst hnc
      have h1 : (t.addCol c 0).getCol c = some (List.replicate t.nrows 0) := by
        rw [Frame.getCol_addCol]
        simp [Frame.hasCol] at h
        simp [h]
      have h2 : (t.addCol c 0).hasCol c := by
        simp [Frame.hasCol, h1]
      calc (addMissing t (c :: rest)).getCol c
          = (addMissing (t.addCol c 0) rest).getCol c := rfl
        _ = (t.addCol c 0).getCol c :=
            getCol_addMissing_of_hasCol (t.addCol c 0) rest c h2
        _ = some (List.replicate t.nrows 0) := h1
    · have hm' : n ∈ rest := by
        rcases List.mem_cons.mp hm with h' | h'
        · exact absurd h'.symm hnc
        · exact h'
      have h1 : (t.addCol c 0).getCol n = none := by
        rw [Frame.getCol_addCol]
        simp [Frame.hasCol] at h
        simp [h, hnc]
      have h2 : (t.addCol c 0).hasCol n = false := by
        simp [Frame.hasCol, h1]
      calc (addMissing t (c :: rest)).getCol n
          = (addMissing (t.addCol c 0) rest).getCol n := rfl
        _ = some (List.replicate (t.addCol c 0).nrows 0) :=
            ih (t.addCol c 0) h2 hm'
        _ = some (List.replicate t.nrows 0) := rfl

theorem Frame.hasCol_iff_mem (f : Frame) (n : String) :
    f.hasCol n = true ↔ n ∈ f.colNames := by
  constructor
  · intro h
    rcases Option.isSome_iff_exists.mp h with ⟨v, hv⟩
    unfold getCol at hv
    rcases Option.map_eq_some'.mp hv with ⟨p, hp, rfl⟩
    have h1 : p.1 = n := by simpa using List.find?_some hp
    have h2 : p ∈ f.cols := List.mem_of_find?_eq_some hp
    exact h1 ▸ List.mem_map_of_mem Prod.fst h2
  · intro h
    rcases List.mem_map.mp h with ⟨p, hp, rfl⟩
    cases hf : f.cols.find? (fun q => q.1 == p.1) with
    | none =>
      have := List.find?_eq_none.mp hf p hp
      simp at this
    | some q => simp [hasCol, getCol, hf]

theorem Frame.getCol_eq_none (f : Frame) (n : String)
    (h : f.hasCol n = false) : f.getCol n = none := by
  cases hg : f.getCol n with
  | none => rfl
  | some v => simp [hasCol, hg] at h

theorem mapM_getCol_eq (f : Frame) (names : List String)
    (h : ∀ n ∈ names, f.hasCol n = true) :
    names.mapM (fun n => (f.getCol n).map (fun v => (n, v))) =
      some (names.map (fun n => (n, (f.getCol n).getD []))) := by
  induction names with
  | nil => rfl
  | cons a rest ih =>
    obtain ⟨v, hv⟩ :=
      Option.isSome_iff_exists.mp (h a (List.mem_cons_self a rest))
    rw [List.mapM_cons, hv, ih (fun n hn => h n (List.mem_cons_of_mem a hn))]
    simp [hv]

theorem Frame.select_eq_some (f : Frame) (names : List String)
    (h : ∀ n ∈ names, f.hasCol n = true) :
    f.select names =
      some ⟨f.nrows, names.map (fun n => (n, (f.getCol n).getD []))⟩ := by
  unfold select
  rw [mapM_getCol_eq f names h]
  rfl

theorem alignWith_eq_alignF (trainCols ms : List String) (t : Frame)
    (h : ∀ n ∈ trainCols, t.hasCol n = false → n ∈ ms) :
    alignWith trainCols ms t = some (alignF trainCols t) := by
  have hhas : ∀ n ∈ trainCols, (addMissing t ms).hasCol n = true := by
    intro n hn
    cases hc : t.hasCol n with
    | true =>
      have := getCol_addMissing_of_hasCol t ms n hc
      simp [Frame.hasCol, this]
      simpa [Frame.hasCol] using hc
    | false =>
      have := getCol_addMissing_of_missing t ms n hc (h n hn hc)
      simp [Frame.hasCol, this]
  unfold alignWith
  rw [Frame.select_eq_some _ _ hhas]
  unfold alignF
  rw [nrows_addMissing]
  simp only [Option.some_inj, Frame.mk.injEq, true_and]
  apply List.map_congr_left
  intro n hn
  cases hc : t.hasCol n with
  | true =>
    obtain ⟨v, hv⟩ := Option.isSome_iff_exists.mp hc
    rw [getCol_addMissing_of_hasCol t ms n hc, hv]
    rfl
  | false =>
    rw [getCol_addMissing_of_missing t ms n hc (h n hn hc),
      Frame.getCol_eq_none t n hc]
    rfl

theorem align_eq_alignF (trainCols : List String) (t : Frame) :
    align trainCols t = some (alignF trainCols t) := by
  apply alignWith_eq_alignF
  intro n hn hc
  simp [missing_cols, List.mem_filter, hn, hc]

theorem alignF_colNames (trainCols : List String) (t : Frame) :
    (alignF trainCols t).colNames = trainCols := by
  simp only [alignF, Frame.colNames, List.map_map]
  simp [Function.comp_def]

theorem alignF_nrows (trainCols : List String) (t : Frame) :
    (alignF trainCols t).nrows = t.nrows := rfl

theorem getCol_mk_map (r : Nat) (names : List String) (g : String → List ℚ)
    (n : String) (h : n ∈ names) :
    (Frame.mk r (names.map (fun m => (m, g m)))).getCol n = some (g n) := by
  induction names with
  | nil => cases h
  | cons a rest ih =>
    by_cases ha : a = n
    · subst ha
      unfold Frame.getCol
      rw [List.map_cons, List.find?_cons_of_pos _ (by simp)]
      rfl
    · have h' : n ∈ rest := by
        rcases List.mem_cons.mp h with h'' | h''
        · exact absurd h''.symm ha
        · exact h''
      have ihn := ih h'
      unfold Frame.getCol at ihn ⊢
      rw [List.map_cons, List.find?_cons_of_neg _ (by simp [ha])]
      exact ihn

theorem alignF_getCol (trainCols : List String) (t : Frame) (n : String)
    (h : n ∈ trainCols) :
    (alignF trainCols t).getCol n =
      some ((t.getCol n).getD (List.replicate t.nrows 0)) :=
  getCol_mk_map t.nrows trainCols _ n h

theorem map_getD_colNames (r : Nat) (l : List (String × List ℚ)) (d : List ℚ)
    (h : (l.map Prod.fst).Nodup) :
    (l.map Prod.fst).map
      (fun n => (n, ((Frame.mk r l).getCol n).getD d)) = l := by
  induction l with
  | nil => rfl
  | cons p rest ih =>
    obtain ⟨a, v⟩ := p
    simp only [List.map_cons] at h ⊢
    obtain ⟨ha, hrest⟩ := List.nodup_cons.mp h
    congr 1
    · unfold Frame.getCol
      rw [List.find?_cons_of_pos _ (by simp)]
      rfl
    · have hcong : ∀ n ∈ rest.map Prod.fst,
          (n, ((Frame.mk r ((a, v) :: rest)).getCol n).getD d)
            = (n, ((Frame.mk r rest).getCol n).getD d) := by
        intro n hn
        have hna : ¬(a = n) := fun he => ha (he ▸ hn)
        unfold Frame.getCol
        rw [List.find?_cons_of_neg _ (by simp [hna])]
      rw [List.map_congr_left hcong]
      exact ih hrest

/-- Claim C1: for every training schema and test frame, the alignment step
succeeds and yields a test frame whose column list equals the training schema
element for element and in order, with the row count unchanged and every
column shared with the input keeping its cell values in their original row
order. -/
theorem claim_C1 (trainCols : List String) (t : Frame) :
    ∃ r, align trainCols t = some r ∧ r.colNames = trainCols ∧
      r.nrows = t.nrows ∧
      ∀ c v, c ∈ trainCols → t.getCol c = some v → r.getCol c = some v := by
  refine ⟨alignF trainCols t, align_eq_alignF trainCols t,
    alignF_colNames trainCols t, rfl, fun c v hc hv => ?_⟩
  rw [alignF_getCol trainCols t c hc, hv]
  rfl

theorem claim_C1_witness :
    ∃ r, align ["A", "B"] (Frame.mk 2 [("B", [3, 4])]) = some r ∧
      r.colNames = ["A", "B"] ∧
      r.nrows = (Frame.mk 2 [("B", [3, 4])]).nrows ∧
      ∀ c v, c ∈ ["A", "B"] →
        (Frame.mk 2 [("B", [3, 4])]).getCol c = some v →
        r.getCol c = some v :=
  claim_C1 ["A", "B"] (Frame.mk 2 [("B", [3, 4])])

/-- Claim C3: a training-schema column absent from the test frame is added
filled with zero in every row, a test-only column is dropped, and the spec's
concrete scenario aligns [A, B, OneHot_X, OneHot_Z] to the training schema
[A, B, OneHot_X, OneHot_Y] with OneHot_Y all zeros and OneHot_Z absent. -/
theorem claim_C3 (trainCols : List String) (t : Frame) (cMiss : String)
    (cOnly : String) (h1 : cMiss ∈ trainCols) (h2 : t.hasCol cMiss = false)
    (h3 : cOnly ∉ trainCols) :
    ∃ r, align trainCols t = some r ∧
      r.getCol cMiss = some (List.replicate t.nrows 0) ∧
      r.hasCol cOnly = false ∧
      align ["A", "B", "OneHot_X", "OneHot_Y"] scenarioTest =
        some scenarioAligned := by
  refine ⟨alignF trainCols t, align_eq_alignF trainCols t, ?_, ?_, by decide⟩
  · rw [alignF_getCol trainCols t cMiss h1, Frame.getCol_eq_none t cMiss h2]
    rfl
  · have hb : (alignF trainCols t).hasCol cOnly ≠ true := by
      intro hmem
      rw [Frame.hasCol_iff_mem, alignF_colNames] at hmem
      exact h3 hmem
    exact Bool.eq_false_iff.mpr hb

theorem claim_C3_witness :
    "OneHot_Y" ∈ ["A", "B", "OneHot_X", "OneHot_Y"] ∧
    scenarioTest.hasCol "OneHot_Y" = false ∧
    "OneHot_Z" ∉ ["A", "B", "OneHot_X", "OneHot_Y"] ∧
    (∃ r, align ["A", "B", "OneHot_X", "OneHot_Y"] scenarioTest = some r ∧
      r.getCol "OneHot_Y" = some (List.replicate scenarioTest.nrows 0) ∧
      r.hasCol "OneHot_Z" = false ∧
      align ["A", "B", "OneHot_X", "OneHot_Y"] scenarioTest =
        some scenarioAligned) :=
  ⟨by decide, by decide, by decide,
    claim_C3 ["A", "B", "OneHot_X", "OneHot_Y"] scenarioTest "OneHot_Y"
      "OneHot_Z" (by decide) (by decide) (by decide)⟩

/-- Claim C4: alignment is idempotent — aligning a test frame whose column
list already equals the (duplicate-free) training schema returns the frame
unchanged: same columns, same order, same cell values, same row count. -/
theorem claim_C4 (trainCols : List String) (t : Frame)
    (h1 : t.colNames = trainCols) (h2 : trainCols.Nodup) :
    align trainCols t = some t := by
  subst h1
  rw [align_eq_alignF]
  obtain ⟨r, l⟩ := t
  have h2' : (l.map Prod.fst).Nodup := by
    simpa [Frame.colNames] using h2
  exact congrArg some
    (congrArg (Frame.mk r) (map_getD_colNames r l (List.replicate r 0) h2'))

theorem claim_C4_witness :
    (Frame.mk 2 [("A", [1, 2]), ("B", [3, 4])]).colNames = ["A", "B"] ∧
    (["A", "B"] : List String).Nodup ∧
    align ["A", "B"] (Frame.mk 2 [("A", [1, 2]), ("B", [3, 4])]) =
      some (Frame.mk 2 [("A", [1, 2]), ("B", [3, 4])]) :=
  ⟨rfl, by decide,
    claim_C4 ["A", "B"] (Frame.mk 2 [("A", [1, 2]), ("B", [3, 4])])
      rfl (by decide)⟩

/-- Claim C9: the alignment step mutates only the test frame — the training
Feature Matrix component of the state is returned with its column list,
column order, row count and every cell value intact, and the alignment
result reads nothing of the training frame beyond its column list. -/
theorem claim_C9 (X Y t : Frame) (h : X.colNames = Y.colNames) :
    (alignStep X t).1 = X ∧
    (alignStep X t).1.colNames = X.colNames ∧
    (alignStep X t).1.nrows = X.nrows ∧
    (alignStep X t).1.cols = X.cols ∧
    (alignStep X t).2 = (alignStep Y t).2 := by
  refine ⟨rfl, rfl, rfl, rfl, ?_⟩
  simp only [alignStep]
  rw [h]

theorem claim_C9_witness :
    (Frame.mk 1 [("A", [1])]).colNames = (Frame.mk 5 [("A", [])]).colNames ∧
    ((alignStep (Frame.mk 1 [("A", [1])]) scenarioTest).1 =
        Frame.mk 1 [("A", [1])] ∧
      (alignStep (Frame.mk 1 [("A", [1])]) scenarioTest).1.colNames =
        (Frame.mk 1 [("A", [1])]).colNames ∧
      (alignStep (Frame.mk 1 [("A", [1])]) scenarioTest).1.nrows =
        (Frame.mk 1 [("A", [1])]).nrows ∧
      (alignStep (Frame.mk 1 [("A", [1])]) scenarioTest).1.cols =
        (Frame.mk 1 [("A", [1])]).cols ∧
      (alignStep (Frame.mk 1 [("A", [1])]) scenarioTest).2 =
        (alignStep (Frame.mk 5 [("A", [])]) scenarioTest).2) :=
  ⟨rfl, claim_C9 (Frame.mk 1 [("A", [1])]) (Frame.mk 5 [("A", [])])
    scenarioTest rfl⟩

/-- Claim C10: the embedded pipeline is deterministic in the one place the
source leaves an evaluation order open — iterating over the unordered set of
missing columns in any order yields the same aligned frame once the final
column selection is applied. -/
theorem claim_C10 (trainCols ms : List String) (t : Frame)
    (h : ms.Perm (missing_cols trainCols t)) :
    alignWith trainCols ms t = align trainCols t := by
  rw [align_eq_alignF]
  exact alignWith_eq_alignF trainCols ms t (fun n hn hc =>
    h.mem_iff.mpr (by simp [missing_cols, List.mem_filter, hn, hc]))

theorem claim_C10_witness :
    (["OneHot_Y", "B"] : List String).Perm
      (missing_cols ["A", "B", "OneHot_X", "OneHot_Y"]
        (Frame.mk 2 [("A", [1, 2]), ("OneHot_X", [1, 0])])) ∧
    alignWith ["A", "B", "OneHot_X", "OneHot_Y"] ["OneHot_Y", "B"]
        (Frame.mk 2 [("A", [1, 2]), ("OneHot_X", [1, 0])]) =
      align ["A", "B", "OneHot_X", "OneHot_Y"]
        (Frame.mk 2 [("A", [1, 2]), ("OneHot_X", [1, 0])]) :=
  ⟨by decide, claim_C10 ["A", "B", "OneHot_X", "OneHot_Y"] ["OneHot_Y", "B"]
    (Frame.mk 2 [("A", [1, 2]), ("OneHot_X", [1, 0])]) (by decide)⟩

theorem alignAndExtract_eq_none (X t : Frame)
    (h : "Churn" ∉ X.colNames) : alignAndExtract X t = none := by
  unfold alignAndExtract
  rw [align_eq_alignF]
  have hb : (alignF X.colNames t).hasCol "Churn" = false := by
    have hne : (alignF X.colNames t).hasCol "Churn" ≠ true := by
      intro hmem
      rw [Frame.hasCol_iff_mem, alignF_colNames] at hmem
      exact h hmem
    exact Bool.eq_false_iff.mpr hne
  simp [Frame.drop, hb]

/-- Claim C2 is false on the code: with a well-formed training Feature
Matrix (label already dropped) and a well-formed raw test frame (label
present), the alignment-and-extraction stage fails — the reindex to
`X.columns` removes "Churn", so `testingDF.drop('Churn', axis=1)` raises
`KeyError` (here: returns `none`). -/
theorem claim_C2 : alignAndExtract churnTrainX churnRawTest = none :=
  alignAndExtract_eq_none churnTrainX churnRawTest (by decide)

/-- Claim C5: the prediction-normalization step maps a score s to 1 when
s >= 0.5 and to 0 when s < 0.5, the boundary 0.5 itself going to 1, applied
elementwise to the whole score vector. -/
theorem claim_C5 (s : ℚ) (v : List ℚ) :
    (1 / 2 ≤ s → threshold s = 1) ∧ (s < 1 / 2 → threshold s = 0) ∧
    threshold (1 / 2) = 1 ∧ thresholdVec v = v.map threshold := by
  refine ⟨fun h => ?_, fun h => ?_, ?_, rfl⟩
  · unfold threshold
    rw [if_pos h]
  · unfold threshold
    rw [if_neg (not_le.mpr h)]
  · unfold threshold
    rw [if_pos le_rfl]

theorem claim_C5_witness :
    ((1 : ℚ) / 2 ≤ 3 / 4 → threshold (3 / 4) = 1) ∧
    ((3 : ℚ) / 4 < 1 / 2 → threshold (3 / 4) = 0) ∧
    threshold (1 / 2) = 1 ∧
    thresholdVec [1 / 2, 1 / 4] = ([1 / 2, 1 / 4] : List ℚ).map threshold :=
  claim_C5 (3 / 4) [1 / 2, 1 / 4]

/-- Claim C6: on true labels [1,0,1,1,0] and predictions [1,0,0,1,0] the
report shows precision 1, recall 2/3, F1 4/5 and accuracy 4/5 for class 1. -/
theorem claim_C6 :
    precision [1, 0, 1, 1, 0] [1, 0, 0, 1, 0] 1 = 1 ∧
    recall_score [1, 0, 1, 1, 0] [1, 0, 0, 1, 0] 1 = 2 / 3 ∧
    f1score [1, 0, 1, 1, 0] [1, 0, 0, 1, 0] 1 = 4 / 5 ∧
    accuracy [1, 0, 1, 1, 0] [1, 0, 0, 1, 0] = 4 / 5 := by
  have htp : tpCount [1, 0, 1, 1, 0] [1, 0, 0, 1, 0] 1 = 2 := by decide
  have hfp : fpCount [1, 0, 1, 1, 0] [1, 0, 0, 1, 0] 1 = 0 := by decide
  have hfn : fnCount [1, 0, 1, 1, 0] [1, 0, 0, 1, 0] 1 = 1 := by decide
  have hag : ((([1, 0, 1, 1, 0] : List ℚ).zip [1, 0, 0, 1, 0]).filter
      (fun p => p.1 == p.2)).length = 4 := by decide
  have hprec : precision [1, 0, 1, 1, 0] [1, 0, 0, 1, 0] 1 = 1 := by
    unfold precision
    rw [htp, hfp]
    norm_num
  have hrec : recall_score [1, 0, 1, 1, 0] [1, 0, 0, 1, 0] 1 = 2 / 3 := by
    unfold recall_score
    rw [htp, hfn]
    norm_num
  refine ⟨hprec, hrec, ?_, ?_⟩
  · unfold f1score
    rw [hprec, hrec]
    norm_num
  · unfold accuracy
    rw [hag]
    norm_num

/-- Claim C7: for a class with zero true instances the scoring is total and
reports support 0, precision 0 and recall 0 (no crash, no NaN). -/
theorem claim_C7 (yTrue yPred : List ℚ) (c : ℚ) (h : c ∉ yTrue) :
    supportCount yTrue c = 0 ∧ precision yTrue yPred c = 0 ∧
    recall_score yTrue yPred c = 0 := by
  have hsup : supportCount yTrue c = 0 := by
    unfold supportCount
    rw [List.length_eq_zero, List.filter_eq_nil_iff]
    intro a ha hb
    exact h ((by simpa using hb : a = c) ▸ ha)
  have htp : tpCount yTrue yPred c = 0 := by
    unfold tpCount
    rw [List.length_eq_zero, List.filter_eq_nil_iff]
    rintro ⟨a, b⟩ hp hb
    simp only [Bool.and_eq_true, beq_iff_eq] at hb
    exact h (hb.1 ▸ (List.of_mem_zip hp).1)
  have hfn : fnCount yTrue yPred c = 0 := by
    unfold fnCount
    rw [List.length_eq_zero, List.filter_eq_nil_iff]
    rintro ⟨a, b⟩ hp hb
    simp only [Bool.and_eq_true, beq_iff_eq] at hb
    exact h (hb.1 ▸ (List.of_mem_zip hp).1)
  refine ⟨hsup, ?_, ?_⟩
  · unfold precision
    rw [htp]
    by_cases hfp : fpCount yTrue yPred c = 0
    · simp [hfp]
    · simp [hfp]
  · unfold recall_score
    rw [htp, hfn]
    simp

theorem claim_C7_witness :
    (1 : ℚ) ∉ ([0, 0] : List ℚ) ∧
    (supportCount [0, 0] 1 = 0 ∧ precision [0, 0] [1, 0] 1 = 0 ∧
      recall_score [0, 0] [1, 0] 1 = 0) :=
  ⟨by decide, claim_C7 [0, 0] [1, 0] 1 (by decide)⟩

theorem foldl_dedupStep_of_subset (m acc : List String)
    (h : ∀ x ∈ m, x ∈ acc) : m.foldl dedupStep acc = acc := by
  induction m generalizing acc with
  | nil => rfl
  | cons a rest ih =>
    rw [List.foldl_cons]
    have ha : a ∈ acc := h a (List.mem_cons_self a rest)
    have hstep : dedupStep acc a = acc := if_pos ha
    rw [hstep]
    exact ih acc (fun x hx => h x (List.mem_cons_of_mem a hx))

theorem foldl_dedupStep_nodup (l : List String) :
    ∀ acc, (∀ x ∈ l, x ∉ acc) → l.Nodup →
    l.foldl dedupStep acc = acc ++ l := by
  induction l with
  | nil => intro acc _ _; simp
  | cons a rest ih =>
    intro acc hd hn
    rw [List.foldl_cons]
    have ha : a ∉ acc := hd a (List.mem_cons_self a rest)
    have hstep : dedupStep acc a = acc ++ [a] := if_neg ha
    rw [hstep]
    obtain ⟨han, hrn⟩ := List.nodup_cons.mp hn
    rw [ih (acc ++ [a]) ?_ hrn]
    · simp
    · intro x hx hmem
      rcases List.mem_append.mp hmem with hin | hin
      · exact hd x (List.mem_cons_of_mem a hx) hin
      · exact han (List.mem_singleton.mp hin ▸ hx)

theorem unionIndex_importance_data (features : List String)
    (coefs : List (String × List ℚ)) (h1 : features.Nodup)
    (hne : coefs ≠ []) :
    unionIndex (importance_data features coefs) = features := by
  obtain ⟨m, rest, rfl⟩ := List.exists_cons_of_ne_nil hne
  unfold unionIndex importance_data dedupFirst
  simp only [List.map_cons, List.map_map, Function.comp_def,
    List.flatten_cons]
  rw [List.foldl_append,
    foldl_dedupStep_nodup features [] (by simp) h1,
    List.nil_append]
  apply foldl_dedupStep_of_subset
  intro x hx
  rcases List.mem_flatten.mp hx with ⟨l, hl, hxl⟩
  rcases List.mem_map.mp hl with ⟨q, _, rfl⟩
  exact hxl

theorem lookup_mk_isSome (features : List String) (vals : List ℚ)
    (hlen : vals.length = features.length) (n : String)
    (hmem : n ∈ features) :
    ((Series.mk features vals).lookup n).isSome = true := by
  unfold Series.lookup
  rw [if_pos hmem]
  have hlt : features.indexOf n < vals.length := by
    rw [hlen]
    exact List.indexOf_lt_length.mpr hmem
  rw [List.getElem?_eq_getElem hlt]
  rfl

/-- Claim C8: with six fitted models over F training features (each
attribution vector of length F), the assembled Importance Table has exactly
F rows (one per feature name, in order), the model names as its columns, six
cells per row, and no missing cell. -/
theorem claim_C8 (features : List String) (coefs : List (String × List ℚ))
    (h1 : features.Nodup)
    (h2 : ∀ m ∈ coefs, (m.2 : List ℚ).length = features.length)
    (h3 : coefs.length = 6) :
    (importance_df (importance_data features coefs)).length =
      features.length ∧
    (importance_df (importance_data features coefs)).map Prod.fst =
      features ∧
    (importance_data features coefs).map Prod.fst = coefs.map Prod.fst ∧
    ∀ r ∈ importance_df (importance_data features coefs),
      (r.2 : List (Option ℚ)).length = 6 ∧
      ∀ cell ∈ r.2, cell.isSome = true := by
  have hne : coefs ≠ [] := by
    intro he
    rw [he] at h3
    cases h3
  have hu : unionIndex (importance_data features coefs) = features :=
    unionIndex_importance_data features coefs h1 hne
  unfold importance_df
  rw [hu]
  refine ⟨by simp, by simp [Function.comp_def], ?_, ?_⟩
  · unfold importance_data
    simp [List.map_map, Function.comp_def]
  · intro r hr
    rcases List.mem_map.mp hr with ⟨n, hn, rfl⟩
    refine ⟨?_, ?_⟩
    · simp [importance_data, h3]
    · intro cell hcell
      rcases List.mem_map.mp hcell with ⟨msm, hm, rfl⟩
      rcases List.mem_map.mp hm with ⟨q, hq, rfl⟩
      exact lookup_mk_isSome features q.2 (h2 q hq) n hn

theorem claim_C8_witness :
    (["f1", "f2"] : List String).Nodup ∧
    (∀ m ∈ ([("Logistic Regression", [1, 2]), ("Ridge Regression", [3, 4]),
        ("Lasso Regression", [5, 6]), ("Decision Tree", [7, 8]),
        ("Random Forest", [9, 10]), ("Gradient Boosting", [11, 12])] :
        List (String × List ℚ)),
      (m.2 : List ℚ).length = (["f1", "f2"] : List String).length) ∧
    ([("Logistic Regression", [1, 2]), ("Ridge Regression", [3, 4]),
        ("Lasso Regression", [5, 6]), ("Decision Tree", [7, 8]),
        ("Random Forest", [9, 10]), ("Gradient Boosting", [11, 12])] :
        List (String × List ℚ)).length = 6 ∧
    ((importance_df (importance_data ["f1", "f2"]
        [("Logistic Regression", [1, 2]), ("Ridge Regression", [3, 4]),
          ("Lasso Regression", [5, 6]), ("Decision Tree", [7, 8]),
          ("Random Forest", [9, 10]), ("Gradient Boosting", [11, 12])])).length =
        (["f1", "f2"] : List String).length ∧
      (importance_df (importance_data ["f1", "f2"]
        [("Logistic Regression", [1, 2]), ("Ridge Regression", [3, 4]),
          ("Lasso Regression", [5, 6]), ("Decision Tree", [7, 8]),
          ("Random Forest", [9, 10]), ("Gradient Boosting", [11, 12])])).map
          Prod.fst = ["f1", "f2"] ∧
      (importance_data ["f1", "f2"]
        [("Logistic Regression", [1, 2]), ("Ridge Regression", [3, 4]),
          ("Lasso Regression", [5, 6]), ("Decision Tree", [7, 8]),
          ("Random Forest", [9, 10]), ("Gradient Boosting", [11, 12])]).map
          Prod.fst =
        ([("Logistic Regression", [1, 2]), ("Ridge Regression", [3, 4]),
          ("Lasso Regression", [5, 6]), ("Decision Tree", [7, 8]),
          ("Random Forest", [9, 10]), ("Gradient Boosting", [11, 12])] :
          List (String × List ℚ)).map Prod.fst ∧
      ∀ r ∈ importance_df (importance_data ["f1", "f2"]
        [("Logistic Regression", [1, 2]), ("Ridge Regression", [3, 4]),
          ("Lasso Regression", [5, 6]), ("Decision Tree", [7, 8]),
          ("Random Forest", [9, 10]), ("Gradient Boosting", [11, 12])]),
        (r.2 : List (Option ℚ)).length = 6 ∧
        ∀ cell ∈ r.2, cell.isSome = true) :=
  ⟨by decide, by decide, by decide,
    claim_C8 ["f1", "f2"]
      [("Logistic Regression", [1, 2]), ("Ridge Regression", [3, 4]),
        ("Lasso Regression", [5, 6]), ("Decision Tree", [7, 8]),
        ("Random Forest", [9, 10]), ("Gradient Boosting", [11, 12])]
      (by decide) (by decide) (by decide)⟩
